import Mathlib

/-!
# cert-lifetime-exporter: a verification development

A shallow embedding of `main.go`, `nic.go` and `pdd.go`.

* Code that can stop the whole process (`log.Fatal`, `os.Exit`, a runtime
  panic) returns `Except Stop _`.
* Network exchanges and the Go standard library's regular expressions are
  inputs: an exchange is an oracle whose value `none` stands for "the request
  could not be built, the transport failed, the body could not be read or the
  body did not parse", each of which the source answers the same way.
* `rc.Mux` critical sections that assign `rc.Domains` are recorded, in order,
  in the field `sections` of `RuntimeConf`.
-/

namespace CertLifetime

/-- The ways in which code of the exporter ends the process instead of returning. -/
inductive Stop where
  /-- Raised by `log.Fatal(err)`: the message is logged and the process exits with status 1. -/
  | fatal
  /-- Raised by `os.Exit(0)`. -/
  | exit0
  /-- An unrecovered runtime panic (nil dereference, `regexp.MustCompile`). -/
  | panic
deriving DecidableEq, Repr

/-! ## Configuration (`main.go`, `Config`) -/

structure NicConf where
  Enabled : Bool
  Login : String
  Password : String
  AppLogin : String
  AppPassword : String

structure PddConf where
  Enabled : Bool
  Token : String

structure GlobalConf where
  ExcludeDomains : List String
  AddDomains : List String

structure Config where
  Nic : NicConf
  Pdd : PddConf
  Global : GlobalConf

/-! ## NIC provider (`nic.go`) -/

structure NicToken where
  Expires : String
  Token : String
deriving DecidableEq

structure NicZone where
  Name : String
  IdnName : String
  Enable : String
  Service : String
deriving DecidableEq

/-- One `rr` element of `NicRecords.Data.Zone.Rr`. -/
structure NicRr where
  Name : String
  IdnName : String
  Type_ : String
deriving DecidableEq

/-- The parts of `NicRecords` that `GetDomains` reads: `Data.Zone.Name` and `Data.Zone.Rr`. -/
structure NicRecords where
  Name : String
  Rr : List NicRr
deriving DecidableEq

/-- A records document as served by the API for one zone: the `name` attribute of its
`zone` element (absent when `none`) and its `rr` elements in document order. -/
structure NicRecordsDoc where
  Name : Option String
  Rr : List NicRr

/-- Effect of `xml.Unmarshal(b, &r)` on an existing `NicRecords` value: a string field is
assigned when the attribute is present and left alone otherwise, and a slice field is
extended, one new element per `rr` element of the document. -/
def NicRecords.unmarshal (r : NicRecords) (doc : NicRecordsDoc) : NicRecords :=
  { Name := match doc.Name with
            | some n => n
            | none => r.Name
    Rr := r.Rr ++ doc.Rr }

/-- What the token exchange of `NicToken.Get` ends in, up to `json.Unmarshal(b, &t)`. -/
inductive TokenExchange where
  /-- The request could not be built or performed, the body could not be read, or
  the body is not JSON for a `NicToken`. -/
  | failed
  /-- The body is the JSON value `null`: decoding it through `&t` sets the pointer
  `t` itself to nil. -/
  | null
  /-- The value of `*t` after the body was decoded into it. -/
  | decoded (t : NicToken)

/-- The NIC API as seen by one refresh pass. `none` is a failed exchange. -/
structure NicApi where
  /-- The token exchange, for the configuration and the token held so far. -/
  token : Config → NicToken → TokenExchange
  /-- The zones decoded by `GetZones` into a cleared `NicZones`. -/
  zones : NicToken → Option (List NicZone)
  /-- The records document of one zone. -/
  records : NicToken → NicZone → Option NicRecordsDoc

/-- Embedding of `(t *NicToken) Get(c *Config)`. After a body `null` the final
`log.Printf` reads `t.Token` through the nil pointer. -/
def NicToken.Get (api : NicApi) (c : Config) (t : NicToken) : Except Stop NicToken :=
  match api.token c t with
  | .failed => .error .fatal
  | .null => .error .panic
  | .decoded t1 => .ok t1

/-- Embedding of `(z *NicZones) GetZones(t *NicToken)`; the result is `z.Data.Zone`. -/
def NicZones.GetZones (api : NicApi) (t : NicToken) : Except Stop (List NicZone) :=
  match api.zones t with
  | none => .error .fatal
  | some zs => .ok zs

/-- First loop of `GetDomains`: one request per zone, each decoded into the same `r`,
whose value is then appended to `records`. -/
def NicZones.fetchRecords (api : NicApi) (t : NicToken) :
    List NicZone → NicRecords → List NicRecords → Except Stop (List NicRecords)
  | [], _, records => .ok records
  | zone :: rest, r, records =>
    match api.records t zone with
    | none => .error .fatal
    | some doc =>
      let r1 := r.unmarshal doc
      NicZones.fetchRecords api t rest r1 (records ++ [r1])

/-- Inner loop of the second phase of `GetDomains`, over the records of one entry. -/
def NicZones.entryDomains (zone : String) : List NicRr → List String → List String
  | [], domains => domains
  | record :: rest, domains =>
    if (record.Type_ = "A" ∨ record.Type_ = "CNAME") ∧ record.Name ≠ "@" then
      NicZones.entryDomains zone rest (domains ++ [record.Name ++ "." ++ zone])
    else
      NicZones.entryDomains zone rest domains

/-- Second loop of `GetDomains`, over the collected entries. -/
def NicZones.collectDomains : List NicRecords → List String → List String
  | [], domains => domains
  | entry :: rest, domains =>
    NicZones.collectDomains rest (NicZones.entryDomains entry.Name entry.Rr domains)

/-- Embedding of `(z *NicZones) GetDomains(t *NicToken) []string`. -/
def NicZones.GetDomains (api : NicApi) (z : List NicZone) (t : NicToken) :
    Except Stop (List String) :=
  match NicZones.fetchRecords api t z { Name := "", Rr := [] } [] with
  | .error s => .error s
  | .ok records => .ok (NicZones.collectDomains records [])

/-! ## PDD provider (`pdd.go`) -/

structure PddRecord where
  Fqdn : String
  Type_ : String
deriving DecidableEq

structure PddZone where
  Records : List PddRecord

structure PddDomain where
  Name : String
  Status : String
deriving DecidableEq

structure PddZonePage where
  Page : Int
  OnPage : Int
  Found : Int
  Domains : List PddDomain

/-- The PDD API as seen by one refresh pass. `none` is a failed exchange. -/
structure PddApi where
  /-- The page decoded into a cleared `PddZonePage` for page number `i`. -/
  page : String → Nat → Option PddZonePage
  /-- The records decoded into a cleared `PddZone` for one zone. -/
  records : String → String → Option PddZone

/-- The request loop `for i := 1; ; i++` of `GetPddZones`. The loop has no bound of its
own, so the embedding takes fuel and answers `none` when it runs out. -/
def GetPddZones.loop (api : PddApi) (token : String) :
    Nat → Nat → List PddZonePage → Option (Except Stop (List PddZonePage))
  | 0, _, _ => none
  | fuel + 1, i, pages =>
    match api.page token i with
    | none => some (.error .fatal)
    | some p =>
      if p.Found < p.OnPage then some (.ok (pages ++ [p]))
      else GetPddZones.loop api token fuel (i + 1) (pages ++ [p])

/-- Second phase of `GetPddZones`: the names of the domains of every page. -/
def GetPddZones.names : List PddZonePage → List String → List String
  | [], zones => zones
  | pg :: rest, zones => GetPddZones.names rest (zones ++ pg.Domains.map (·.Name))

/-- Embedding of `GetPddZones(token *string) []string`. -/
def GetPddZones (api : PddApi) (token : String) (fuel : Nat) :
    Option (Except Stop (List String)) :=
  match GetPddZones.loop api token fuel 1 [] with
  | none => none
  | some (.error s) => some (.error s)
  | some (.ok pages) => some (.ok (GetPddZones.names pages []))

/-- Innermost loop of `GetPddDomains`, over the records of one zone. -/
def GetPddDomains.zoneDomains : List PddRecord → List String → List String
  | [], domains => domains
  | rr :: rest, domains =>
    if rr.Type_ = "CNAME" ∨ rr.Type_ = "A" then
      GetPddDomains.zoneDomains rest (domains ++ [rr.Fqdn])
    else
      GetPddDomains.zoneDomains rest domains

/-- The zone loop of `GetPddDomains`. -/
def GetPddDomains.loop (api : PddApi) (token : String) :
    List String → List String → Except Stop (List String)
  | [], domains => .ok domains
  | z :: rest, domains =>
    match api.records token z with
    | none => .error .fatal
    | some records =>
      GetPddDomains.loop api token rest (GetPddDomains.zoneDomains records.Records domains)

/-- Embedding of `GetPddDomains(token *string, zones *[]string) []string`. -/
def GetPddDomains (api : PddApi) (token : String) (zones : List String) :
    Except Stop (List String) :=
  GetPddDomains.loop api token zones []

/-! ## The refresher (`main.go`) -/

/-- The type `RuntimeConf`; `NicZones` holds `NicZones.Data.Zone`. The mutex itself is
not a field: every `Lock(); rc.Domains = v; Unlock()` of the source is the function
`RuntimeConf.locked`, which also appends `v` to `sections`, the record of the values
that critical sections have left in `rc.Domains`, oldest first. -/
structure RuntimeConf where
  Config : Config
  NicToken : NicToken
  NicZones : List NicZone
  Domains : List String
  sections : List (List String)

/-- One critical section of `rc.Mux` that leaves `v` in `rc.Domains`. -/
def RuntimeConf.locked (rc : RuntimeConf) (v : List String) : RuntimeConf :=
  { rc with Domains := v, sections := rc.sections ++ [v] }

/-- What a refresh pass reads from outside the process: the two provider APIs and the
behaviour of `regexp.Compile`, which for a pattern either fails (`none`) or gives the
predicate `MatchString` of the compiled expression. `regexp.MustCompile` panics exactly
when `regexp.Compile` fails. -/
structure Env where
  nic : NicApi
  pdd : PddApi
  compile : String → Option (String → Bool)

/-- Embedding of `(rc *RuntimeConf) refreshNicConfig()`. -/
def RuntimeConf.refreshNicConfig (env : Env) (rc : RuntimeConf) : Except Stop RuntimeConf :=
  match NicToken.Get env.nic rc.Config rc.NicToken with
  | .error s => .error s
  | .ok t =>
    match NicZones.GetZones env.nic t with
    | .error s => .error s
    | .ok z =>
      match NicZones.GetDomains env.nic z t with
      | .error s => .error s
      | .ok ds => .ok (({ rc with NicToken := t, NicZones := z }).locked (rc.Domains ++ ds))

/-- Embedding of `(rc *RuntimeConf) refreshPddConfig()`. -/
def RuntimeConf.refreshPddConfig (env : Env) (fuel : Nat) (rc : RuntimeConf) :
    Option (Except Stop RuntimeConf) :=
  let t := rc.Config.Pdd.Token
  match GetPddZones env.pdd t fuel with
  | none => none
  | some (.error s) => some (.error s)
  | some (.ok z) =>
    match GetPddDomains env.pdd t z with
    | .error s => some (.error s)
    | .ok ds => some (.ok (rc.locked (rc.Domains ++ ds)))

/-- The loop over `rc.Config.Global.ExcludeDomains` inside `excludeDomains`, for one
domain. The argument `m` is the variable `match` as the loop finds it; the result is
its value when the loop is left. -/
def RuntimeConf.excludeDomains.inner (compile : String → Option (String → Bool))
    (domain : String) : List String → Bool → Except Stop Bool
  | [], m => .ok m
  | exclude :: rest, _ =>
    match compile exclude with
    | none => .error .panic
    | some re =>
      if re domain then .ok true
      else RuntimeConf.excludeDomains.inner compile domain rest false

/-- The loop over `rc.Domains` inside `excludeDomains`. `match` is declared outside
this loop, so its value is carried from one domain to the next. -/
def RuntimeConf.excludeDomains.outer (compile : String → Option (String → Bool))
    (excludes : List String) : List String → Bool → List String → Except Stop (List String)
  | [], _, result => .ok result
  | domain :: rest, m, result =>
    match RuntimeConf.excludeDomains.inner compile domain excludes m with
    | .error s => .error s
    | .ok m1 =>
      RuntimeConf.excludeDomains.outer compile excludes rest m1
        (if !m1 then result ++ [domain] else result)

/-- Embedding of `(rc *RuntimeConf) excludeDomains()`. -/
def RuntimeConf.excludeDomains (env : Env) (rc : RuntimeConf) : Except Stop RuntimeConf :=
  match RuntimeConf.excludeDomains.outer env.compile rc.Config.Global.ExcludeDomains
      rc.Domains false [] with
  | .error s => .error s
  | .ok result => .ok (rc.locked result)

/-- The loop of `addStaticDomains`, run inside one critical section. -/
def RuntimeConf.addStaticDomains.loop : List String → List String → List String
  | [], domains => domains
  | d :: rest, domains => RuntimeConf.addStaticDomains.loop rest (domains ++ [d])

/-- Embedding of `(rc *RuntimeConf) addStaticDomains()`. -/
def RuntimeConf.addStaticDomains (rc : RuntimeConf) : RuntimeConf :=
  rc.locked (RuntimeConf.addStaticDomains.loop rc.Config.Global.AddDomains rc.Domains)

/-- Embedding of `(rc *RuntimeConf) refreshConfig()`. The answer is `none` only when
the page loop of `GetPddZones` outlives the fuel. -/
def RuntimeConf.refreshConfig (env : Env) (fuel : Nat) (rc : RuntimeConf) :
    Option (Except Stop RuntimeConf) :=
  if !rc.Config.Nic.Enabled && !rc.Config.Pdd.Enabled then some (.error .exit0)
  else
    let rc1 := rc.locked []
    match (if rc1.Config.Nic.Enabled then rc1.refreshNicConfig env else .ok rc1) with
    | .error s => some (.error s)
    | .ok rc2 =>
      match (if rc2.Config.Pdd.Enabled then rc2.refreshPddConfig env fuel
             else some (.ok rc2)) with
      | none => none
      | some (.error s) => some (.error s)
      | some (.ok rc3) =>
        match rc3.excludeDomains env with
        | .error s => some (.error s)
        | .ok rc4 => some (.ok rc4.addStaticDomains)

/-! ## The probe worker and the results store (`main.go`) -/

/-- The type `Check`. `CertLifetime` is kept as the `time.Duration` (nanoseconds) whose
`Seconds()` the source stores; `Seconds()` is a function of the duration and sends 0 to 0. -/
structure Check where
  CertLifetime : Int
  CheckStatus : String
deriving DecidableEq

/-- The map `Results.Map`. -/
def Results := String → Option Check

/-- The assignment `results.Map[k] = v`. -/
def Results.set (m : Results) (k : String) (v : Check) : Results :=
  fun x => if x = k then some v else m x

/-- The value of `make(map[string]Check)`. -/
def Results.empty : Results := fun _ => none

/-- What one goroutine does to a `Results` value, in program order. -/
inductive ResultsOp where
  /-- The call `results.Mux.Lock()`. -/
  | lock
  /-- The call `results.Mux.Unlock()`. -/
  | unlock
  /-- The assignment `results.Map[k] = v`. -/
  | write (k : String) (v : Check)
  /-- The loop `for k, v := range results.Map`. -/
  | range
deriving DecidableEq

/-- The map after the writes among `ops`, in order. -/
def Results.apply (m : Results) : List ResultsOp → Results
  | [] => m
  | .write k v :: rest => Results.apply (m.set k v) rest
  | _ :: rest => Results.apply m rest

/-- Whether every access to the map among `ops` is made between a `lock` and the next
`unlock` of the same goroutine; `held` tells whether the goroutine holds the mutex at
the start. -/
def ResultsOp.guarded : Bool → List ResultsOp → Bool
  | _, [] => true
  | _, .lock :: rest => ResultsOp.guarded true rest
  | _, .unlock :: rest => ResultsOp.guarded false rest
  | held, .write _ _ :: rest => held && ResultsOp.guarded held rest
  | held, .range :: rest => held && ResultsOp.guarded held rest

/-- The fields of `x509.Certificate` that the worker reads; `NotAfter` in nanoseconds
since the epoch. -/
structure Certificate where
  DNSNames : List String
  NotAfter : Int
deriving DecidableEq

/-- The field of `tls.ConnectionState` that the worker reads. -/
structure ConnectionState where
  PeerCertificates : List Certificate

/-- The field of `http.Response` that the worker reads: the pointer `TLS`, nil when `none`. -/
structure Response where
  TLS : Option ConnectionState

/-- The smallest `time.Duration`. -/
def minDuration : Int := -(2 ^ 63)

/-- The largest `time.Duration`. -/
def maxDuration : Int := 2 ^ 63 - 1

/-- The duration `time.Until(t)` when the clock reads `now`: the difference, brought
into the range of `time.Duration` as `Time.Sub` does. -/
def timeUntil (now t : Int) : Int :=
  if t - now < minDuration then minDuration
  else if maxDuration < t - now then maxDuration
  else t - now

/-- What one iteration of the worker meets outside the process. -/
structure Probe where
  /-- Whether `http.NewRequest("HEAD", "https://"+url, nil)` returns a nil error. -/
  requestOk : Bool
  /-- The result of `client.Do(req)`: `none` for a non-nil error. -/
  resp : Option Response
  /-- The reading of the clock when `time.Until` is called for the certificate at
  the given position of the chain. -/
  clock : Nat → Int

/-- The loop `for _, c := range peerCerts` of `certTimeLeft`; `i` is the position of
the head of the list in the chain. -/
def certTimeLeft.certs (url : String) (clock : Nat → Int) :
    List Certificate → Nat → List ResultsOp
  | [], _ => []
  | c :: rest, i =>
    if c.DNSNames.length ≠ 0 then
      [.lock, .write url ⟨timeUntil (clock i) c.NotAfter, "ok"⟩, .unlock]
        ++ certTimeLeft.certs url clock rest (i + 1)
    else certTimeLeft.certs url clock rest (i + 1)

/-- One iteration of the loop of `certTimeLeft`, for the FQDN `url` received from the
channel: what it does to `results`, or how it stops the process. -/
def certTimeLeft.iteration (url : String) (p : Probe) : Except Stop (List ResultsOp) :=
  if !p.requestOk then .ok [.lock, .write url ⟨0, "fail"⟩, .unlock]
  else
    match p.resp with
    | none => .ok [.lock, .write url ⟨0, "fail"⟩, .unlock]
    | some resp =>
      match resp.TLS with
      | none => .error .panic
      | some tls => .ok (certTimeLeft.certs url p.clock tls.PeerCertificates 0)

/-- The store after one iteration of one worker that runs alone. -/
def certTimeLeft.step (results : Results) (url : String) (p : Probe) : Except Stop Results :=
  match certTimeLeft.iteration url p with
  | .error s => .error s
  | .ok ops => .ok (results.apply ops)

/-- The store after a worker has received the given FQDNs, in order. -/
def certTimeLeft (results : Results) : List (String × Probe) → Except Stop Results
  | [] => .ok results
  | (url, p) :: rest =>
    match certTimeLeft.step results url p with
    | .error s => .error s
    | .ok r => certTimeLeft r rest

/-- What `serveMetrics` itself does to `results` before it starts the server. -/
def serveMetrics.ops : List ResultsOp := [.lock, .unlock]

/-- What the closure `metrics` of `serveMetrics` does to `results` each time the
server calls it for a request. -/
def serveMetrics.metrics : List ResultsOp := [.range]

/-- The dispatcher's snapshot `slc = rc.Domains`, taken under `rc.Mux` when `k` of the
critical sections of a refresh pass have completed: the registry `old` from before the
pass when `k = 0`, otherwise what the `k`-th section stored (the last one when `k`
exceeds their number). -/
def queueDomains.snapshot (old : List String) (stores : List (List String)) (k : Nat) :
    List String :=
  (old :: stores).getD (min k stores.length) old

/-! ## Vocabulary of the statements -/

/-- Whether some pattern of `excludes` compiles and matches `d`. -/
def matchesAny (compile : String → Option (String → Bool)) (excludes : List String)
    (d : String) : Bool :=
  excludes.any fun e =>
    match compile e with
    | some re => re d
    | none => false

/-- The list that the NIC source hands to `refreshNicConfig`: the result of
`GetDomains` after `Get` and `GetZones`. -/
def nicSource (env : Env) (rc : RuntimeConf) : Except Stop (List String) :=
  match NicToken.Get env.nic rc.Config rc.NicToken with
  | .error s => .error s
  | .ok t =>
    match NicZones.GetZones env.nic t with
    | .error s => .error s
    | .ok z => NicZones.GetDomains env.nic z t

/-- The list that the PDD source hands to `refreshPddConfig`: the result of
`GetPddDomains` on the zones of `GetPddZones`. -/
def pddSource (env : Env) (fuel : Nat) (rc : RuntimeConf) : Option (Except Stop (List String)) :=
  match GetPddZones env.pdd rc.Config.Pdd.Token fuel with
  | none => none
  | some (.error s) => some (.error s)
  | some (.ok z) => some (GetPddDomains env.pdd rc.Config.Pdd.Token z)

/-- The FQDNs that the enabled sources contribute, NIC first; a disabled source
contributes nothing. -/
def sourceOutput (c : Config) (N P : List String) : List String :=
  (if c.Nic.Enabled then N else []) ++ (if c.Pdd.Enabled then P else [])

/-- The stores that the source phase of a pass makes, after the clearing one. -/
def sourceStores (c : Config) (N P : List String) : List (List String) :=
  (if c.Nic.Enabled then [N] else []) ++
    (if c.Pdd.Enabled then [sourceOutput c N P] else [])

/-- The values that the critical sections of a completed pass store, in order: the
cleared list, the list after each enabled source, the filtered list, and the filtered
list with the static additions. -/
def passStores (c : Config) (compile : String → Option (String → Bool)) (N P : List String) :
    List (List String) :=
  [] :: sourceStores c N P ++
    [(sourceOutput c N P).filter (fun d => !matchesAny compile c.Global.ExcludeDomains d),
     (sourceOutput c N P).filter (fun d => !matchesAny compile c.Global.ExcludeDomains d)
       ++ c.Global.AddDomains]

/-- The list that the selection policy for NIC records describes, for zones given with
the records decoded from each zone's own response: zone by zone and record by record,
`record.Name + "." + zone.Name` for the records of type `A` or `CNAME` whose name is
not `@`. -/
def NicZones.policyDomains : List (NicZone × List NicRr) → List String
  | [] => []
  | (zone, rrs) :: rest =>
    ((rrs.filter fun r => decide ((r.Type_ = "A" ∨ r.Type_ = "CNAME") ∧ r.Name ≠ "@")).map
        fun r => r.Name ++ "." ++ zone.Name)
      ++ NicZones.policyDomains rest

/-! ## Sample inputs -/

/-- A finite table of `regexp.Compile`: the two patterns of the sample configuration
printed by `printSample`, with the predicates they denote (the whole string `foo.com`;
a string that begins with `bar` or `baz`, a dot, and `org` or `ru`), and the pattern
`(`, which does not compile. No other pattern is used below. -/
def sampleCompile (p : String) : Option (String → Bool) :=
  if p = "^foo\\.com$" then some fun d => decide (d = "foo.com")
  else if p = "^ba(r|z)\\.(org|ru)" then
    some fun d => ["bar.org", "bar.ru", "baz.org", "baz.ru"].any fun b => b.data.isPrefixOf d.data
  else none

/-- A PDD account with one page of four zones, each zone holding an `A` record and an
`MX` record for the zone name. -/
def samplePdd : PddApi where
  page := fun _ i =>
    if i = 1 then
      some { Page := 1, OnPage := 20, Found := 4,
             Domains := [⟨"foo.com", "added"⟩, ⟨"bar.org", "added"⟩,
                         ⟨"baz.ru", "added"⟩, ⟨"qux.io", "added"⟩] }
    else none
  records := fun _ z => some { Records := [⟨z, "A"⟩, ⟨z, "MX"⟩] }

/-- A NIC account whose every exchange fails. -/
def downNic : NicApi where
  token := fun _ _ => .failed
  zones := fun _ => none
  records := fun _ _ => none

/-- The environment of the sample configuration. -/
def sampleEnv : Env where
  nic := downNic
  pdd := samplePdd
  compile := sampleCompile

/-- The configuration of `printSample`, with the given NIC switch and exclusion patterns. -/
def sampleConfig (nic : Bool) (excludes : List String) : Config where
  Nic := { Enabled := nic, Login := "", Password := "", AppLogin := "", AppPassword := "" }
  Pdd := { Enabled := true, Token := "" }
  Global := { ExcludeDomains := excludes,
              AddDomains := ["baz.io:3000", "fiz.svc.cluster.local:8080"] }

/-- A `RuntimeConf` as `main` leaves it after `load`, but with the given registry. -/
def sampleRc (nic : Bool) (excludes : List String) (domains : List String) : RuntimeConf where
  Config := sampleConfig nic excludes
  NicToken := { Expires := "", Token := "" }
  NicZones := []
  Domains := domains
  sections := []

/-- A PDD account without zones: one page, not full, with no domain. -/
def emptyPdd : PddApi where
  page := fun _ _ => some { Page := 1, OnPage := 20, Found := 0, Domains := [] }
  records := fun _ _ => none

/-- The environment of the sample configuration over the account without zones. -/
def emptyEnv : Env where
  nic := downNic
  pdd := emptyPdd
  compile := sampleCompile

/-- The zone `example.com` of a NIC account. -/
def comZone : NicZone :=
  { Name := "example.com", IdnName := "example.com", Enable := "true", Service := "dns" }

/-- The zone `example.org` of a NIC account. -/
def orgZone : NicZone :=
  { Name := "example.org", IdnName := "example.org", Enable := "true", Service := "dns" }

/-- The two zones of a NIC account, in the order of the zone list. -/
def twoZones : List NicZone := [comZone, orgZone]

/-- A NIC account with the zones `twoZones`: `example.com` holds the `A` record `www`,
`example.org` holds the `A` record `mail`. -/
def twoZoneNic : NicApi where
  token := fun _ _ => .decoded { Expires := "14400", Token := "t" }
  zones := fun _ => some twoZones
  records := fun _ z =>
    if z.Name = "example.com" then
      some { Name := some "example.com", Rr := [{ Name := "www", IdnName := "www", Type_ := "A" }] }
    else
      some { Name := some "example.org", Rr := [{ Name := "mail", IdnName := "mail", Type_ := "A" }] }

/-- A probe that ends in a response over TLS with the given chain, under a clock that
reads `now` throughout. -/
def chainProbe (chain : List Certificate) (now : Int) : Probe where
  requestOk := true
  resp := some { TLS := some { PeerCertificates := chain } }
  clock := fun _ => now

/-- A probe whose `client.Do` returns an error. -/
def failedProbe : Probe where
  requestOk := true
  resp := none
  clock := fun _ => 0

/-- A probe whose final response came over plain HTTP: `resp.TLS` is nil. -/
def plainHttpProbe : Probe where
  requestOk := true
  resp := some { TLS := none }
  clock := fun _ => 0

/-- A chain of two certificates that both carry DNS names. -/
def twoNamedChain : List Certificate :=
  [{ DNSNames := ["a.example"], NotAfter := 100 }, { DNSNames := ["ca.example"], NotAfter := 200 }]

/-- A PDD account with the one zone `bar.org`, which holds an `A` and an `MX` record. -/
def barPdd : PddApi where
  page := fun _ _ =>
    some { Page := 1, OnPage := 20, Found := 1, Domains := [⟨"bar.org", "added"⟩] }
  records := fun _ _ => some { Records := [⟨"bar.org", "A"⟩, ⟨"bar.org", "MX"⟩] }

/-- The environment of the sample configuration over the account `barPdd`. -/
def barEnv : Env where
  nic := downNic
  pdd := barPdd
  compile := sampleCompile

/-- A `RuntimeConf` with a registry from an earlier pass and three patterns, the
last of which does not compile. -/
def barRc : RuntimeConf :=
  sampleRc false ["^foo\\.com$", "^ba(r|z)\\.(org|ru)", "("] ["old.example"]

/-- The `RuntimeConf` that a pass of `barRc` over `barEnv` ends with. -/
def barDone : RuntimeConf where
  Config := barRc.Config
  NicToken := barRc.NicToken
  NicZones := barRc.NicZones
  Domains := ["baz.io:3000", "fiz.svc.cluster.local:8080"]
  sections := [[], ["bar.org"], [], ["baz.io:3000", "fiz.svc.cluster.local:8080"]]

/-- A PDD account that lists the zone `bar.org` but whose records requests fail. -/
def brokenPdd : PddApi where
  page := fun _ _ =>
    some { Page := 1, OnPage := 20, Found := 1, Domains := [⟨"bar.org", "added"⟩] }
  records := fun _ _ => none

/-- An environment in which NIC answers and the records requests of PDD fail. -/
def brokenEnv : Env where
  nic := twoZoneNic
  pdd := brokenPdd
  compile := sampleCompile

/-! ## Lemmas on the refresher -/

theorem inner_of_compile (compile : String → Option (String → Bool)) (d : String) :
    ∀ (excludes : List String) (m : Bool),
      (∀ e ∈ excludes, (compile e).isSome = true) → (excludes = [] → m = false) →
      RuntimeConf.excludeDomains.inner compile d excludes m
        = .ok (matchesAny compile excludes d)
  | [], m, _, hm => by
    simp [RuntimeConf.excludeDomains.inner, matchesAny, hm rfl]
  | e :: rest, m, hc, _ => by
    have he : (compile e).isSome = true := hc e (by simp)
    have hrest : ∀ x ∈ rest, (compile x).isSome = true := fun x hx => hc x (by simp [hx])
    have ih := inner_of_compile compile d rest false hrest (fun _ => rfl)
    cases hce : compile e with
    | none => simp [hce] at he
    | some re =>
      cases hre : re d with
      | true => simp [RuntimeConf.excludeDomains.inner, matchesAny, hce, hre]
      | false =>
        simp only [RuntimeConf.excludeDomains.inner, hce, hre, ih]
        simp [matchesAny, hce, hre]

theorem outer_of_compile (compile : String → Option (String → Bool)) (excludes : List String)
    (hc : ∀ e ∈ excludes, (compile e).isSome = true) :
    ∀ (domains : List String) (m : Bool) (result : List String), (excludes = [] → m = false) →
      RuntimeConf.excludeDomains.outer compile excludes domains m result
        = .ok (result ++ domains.filter fun d => !matchesAny compile excludes d)
  | [], m, result, _ => by simp [RuntimeConf.excludeDomains.outer]
  | d :: rest, m, result, hm => by
    have hin := inner_of_compile compile d excludes m hc hm
    have hm1 : excludes = [] → matchesAny compile excludes d = false := by
      intro h; subst h; simp [matchesAny]
    have ih := outer_of_compile compile excludes hc rest (matchesAny compile excludes d)
      (if !(matchesAny compile excludes d) then result ++ [d] else result) hm1
    simp only [RuntimeConf.excludeDomains.outer, hin, ih]
    cases h : matchesAny compile excludes d <;> simp [List.filter_cons, h]

theorem addStatic_loop (adds : List String) :
    ∀ domains, RuntimeConf.addStaticDomains.loop adds domains = domains ++ adds := by
  induction adds with
  | nil => intro domains; simp [RuntimeConf.addStaticDomains.loop]
  | cons a rest ih => intro domains; simp [RuntimeConf.addStaticDomains.loop, ih]


theorem refreshNicConfig_of_source (env : Env) (rc : RuntimeConf) (N : List String)
    (h : nicSource env rc = .ok N) :
    ∃ rc2, rc.refreshNicConfig env = .ok rc2 ∧ rc2.Config = rc.Config ∧
      rc2.Domains = rc.Domains ++ N ∧ rc2.sections = rc.sections ++ [rc.Domains ++ N] := by
  unfold nicSource at h
  unfold RuntimeConf.refreshNicConfig
  cases ht : NicToken.Get env.nic rc.Config rc.NicToken with
  | error s => simp [ht] at h
  | ok t =>
    cases hz : NicZones.GetZones env.nic t with
    | error s => simp [ht, hz] at h
    | ok z =>
      simp only [ht, hz] at h
      simp [hz, h, RuntimeConf.locked]

theorem refreshNicConfig_of_error (env : Env) (rc : RuntimeConf) (s : Stop)
    (h : nicSource env rc = .error s) : rc.refreshNicConfig env = .error s := by
  unfold nicSource at h
  unfold RuntimeConf.refreshNicConfig
  cases ht : NicToken.Get env.nic rc.Config rc.NicToken with
  | error s1 => simpa [ht] using h
  | ok t =>
    cases hz : NicZones.GetZones env.nic t with
    | error s1 => simpa [ht, hz] using h
    | ok z =>
      simp only [ht, hz] at h
      simp [hz, h]

theorem refreshPddConfig_of_source (env : Env) (fuel : Nat) (rc : RuntimeConf) (P : List String)
    (h : pddSource env fuel rc = some (.ok P)) :
    ∃ rc3, rc.refreshPddConfig env fuel = some (.ok rc3) ∧ rc3.Config = rc.Config ∧
      rc3.Domains = rc.Domains ++ P ∧ rc3.sections = rc.sections ++ [rc.Domains ++ P] := by
  unfold pddSource at h
  unfold RuntimeConf.refreshPddConfig
  cases hz : GetPddZones env.pdd rc.Config.Pdd.Token fuel with
  | none => simp [hz] at h
  | some r =>
    cases r with
    | error s => simp [hz] at h
    | ok z =>
      simp only [hz, Option.some.injEq] at h
      simp [hz, h, RuntimeConf.locked]

theorem refreshPddConfig_of_error (env : Env) (fuel : Nat) (rc : RuntimeConf) (s : Stop)
    (h : pddSource env fuel rc = some (.error s)) :
    rc.refreshPddConfig env fuel = some (.error s) := by
  unfold pddSource at h
  unfold RuntimeConf.refreshPddConfig
  cases hz : GetPddZones env.pdd rc.Config.Pdd.Token fuel with
  | none => simp [hz] at h
  | some r =>
    cases r with
    | error s1 => simpa [hz] using h
    | ok z =>
      simp only [hz, Option.some.injEq] at h
      simp [hz, h]

theorem refreshConfig_sources (env : Env) (fuel : Nat) (rc : RuntimeConf) (N P : List String)
    (hen : rc.Config.Nic.Enabled = true ∨ rc.Config.Pdd.Enabled = true)
    (hN : rc.Config.Nic.Enabled = true → nicSource env rc = .ok N)
    (hP : rc.Config.Pdd.Enabled = true → pddSource env fuel rc = some (.ok P)) :
    ∃ rc3 : RuntimeConf, rc3.Config = rc.Config ∧
      rc3.Domains = sourceOutput rc.Config N P ∧
      rc3.sections = rc.sections ++ [] :: sourceStores rc.Config N P ∧
      rc.refreshConfig env fuel =
        (match rc3.excludeDomains env with
         | .error s => some (.error s)
         | .ok rc4 => some (.ok rc4.addStaticDomains)) := by
  have h0 : (!rc.Config.Nic.Enabled && !rc.Config.Pdd.Enabled) = false := by
    rcases hen with h | h <;> simp [h]
  -- the NIC phase
  obtain ⟨rc2, hrc2, hc2, hd2, hs2⟩ : ∃ rc2 : RuntimeConf,
      (if (rc.locked []).Config.Nic.Enabled then (rc.locked []).refreshNicConfig env
        else .ok (rc.locked [])) = .ok rc2 ∧ rc2.Config = rc.Config ∧
      rc2.Domains = (if rc.Config.Nic.Enabled then N else []) ∧
      rc2.sections = rc.sections ++ [] :: (if rc.Config.Nic.Enabled then [N] else []) := by
    cases hn : rc.Config.Nic.Enabled with
    | false => exact ⟨rc.locked [], by simp [RuntimeConf.locked, hn], rfl, by simp [RuntimeConf.locked],
        by simp [RuntimeConf.locked]⟩
    | true =>
      have hsrc : nicSource env (rc.locked []) = .ok N := hN hn
      obtain ⟨rc2, h1, h2, h3, h4⟩ := refreshNicConfig_of_source env (rc.locked []) N hsrc
      exact ⟨rc2, by simpa [RuntimeConf.locked, hn] using h1, h2, by simpa [RuntimeConf.locked] using h3,
        by simpa [RuntimeConf.locked] using h4⟩
  -- the PDD phase
  obtain ⟨rc3, hrc3, hc3, hd3, hs3⟩ : ∃ rc3 : RuntimeConf,
      (if rc2.Config.Pdd.Enabled then rc2.refreshPddConfig env fuel
        else some (.ok rc2)) = some (.ok rc3) ∧ rc3.Config = rc.Config ∧
      rc3.Domains = sourceOutput rc.Config N P ∧
      rc3.sections = rc.sections ++ [] :: sourceStores rc.Config N P := by
    cases hp : rc.Config.Pdd.Enabled with
    | false =>
      exact ⟨rc2, by simp [hc2, hp], hc2, by simp [sourceOutput, hp, hd2],
        by simp [sourceStores, hp, hs2]⟩
    | true =>
      have hsrc : pddSource env fuel rc2 = some (.ok P) := by
        have := hP hp
        simpa [pddSource, hc2] using this
      obtain ⟨rc3, h1, h2, h3, h4⟩ := refreshPddConfig_of_source env fuel rc2 P hsrc
      refine ⟨rc3, by simp [hc2, hp, h1], h2.trans hc2, by simp [sourceOutput, hp, h3, hd2], ?_⟩
      simp [sourceStores, sourceOutput, hp, h4, hs2, hd2]
  refine ⟨rc3, hc3, hd3, hs3, ?_⟩
  unfold RuntimeConf.refreshConfig
  simp only [h0, Bool.false_eq_true, if_false]
  simp only [hrc2, hrc3]

/-! ## C1: the registry installed by a refresh pass -/

/-- C1: when at least one source is enabled, the enabled sources return `N` (NIC) and
`P` (PDD) and every exclusion pattern compiles, `refreshConfig` returns, and the registry
it leaves is the source output without the FQDNs matched by some pattern, in order and
with duplicates, followed by the static additions, whatever the registry held before;
in particular, when every source FQDN is matched, the registry is the static additions. -/
theorem refreshConfig_registry (env : Env) (fuel : Nat) (rc : RuntimeConf) (N P : List String)
    (hen : rc.Config.Nic.Enabled = true ∨ rc.Config.Pdd.Enabled = true)
    (hN : rc.Config.Nic.Enabled = true → nicSource env rc = .ok N)
    (hP : rc.Config.Pdd.Enabled = true → pddSource env fuel rc = some (.ok P))
    (hc : ∀ e ∈ rc.Config.Global.ExcludeDomains, (env.compile e).isSome = true) :
    ∃ rc1 : RuntimeConf, rc.refreshConfig env fuel = some (.ok rc1) ∧
      rc1.Domains =
        (sourceOutput rc.Config N P).filter
            (fun d => !matchesAny env.compile rc.Config.Global.ExcludeDomains d)
          ++ rc.Config.Global.AddDomains ∧
      ((∀ d ∈ sourceOutput rc.Config N P,
          matchesAny env.compile rc.Config.Global.ExcludeDomains d = true) →
        rc1.Domains = rc.Config.Global.AddDomains) := by
  obtain ⟨rc3, hc3, hd3, -, hrun⟩ := refreshConfig_sources env fuel rc N P hen hN hP
  have hout := outer_of_compile env.compile rc.Config.Global.ExcludeDomains hc
    (sourceOutput rc.Config N P) false [] (fun _ => rfl)
  have hdom : (RuntimeConf.addStaticDomains (rc3.locked
      ((sourceOutput rc.Config N P).filter
        (fun d => !matchesAny env.compile rc.Config.Global.ExcludeDomains d)))).Domains =
      (sourceOutput rc.Config N P).filter
          (fun d => !matchesAny env.compile rc.Config.Global.ExcludeDomains d)
        ++ rc.Config.Global.AddDomains := by
    simp [RuntimeConf.addStaticDomains, RuntimeConf.locked, addStatic_loop, hc3]
  refine ⟨_, ?_, hdom, ?_⟩
  · rw [hrun]
    simp [RuntimeConf.excludeDomains, hc3, hd3, hout]
  · intro hall
    rw [hdom]
    have : (sourceOutput rc.Config N P).filter
        (fun d => !matchesAny env.compile rc.Config.Global.ExcludeDomains d) = [] := by
      rw [List.filter_eq_nil_iff]
      intro d hd
      simp [hall d hd]
    simp [this]

/-- Witness for C1: the sample configuration with its two patterns, over a PDD account
that yields `foo.com`, `bar.org`, `baz.ru` and `qux.io`, leaves `qux.io` followed by the
static additions, although the registry held something else before. -/
theorem refreshConfig_registry_witness :
    ∃ rc1 : RuntimeConf,
      (sampleRc false ["^foo\\.com$", "^ba(r|z)\\.(org|ru)"] ["old.example"]).refreshConfig sampleEnv 5
        = some (.ok rc1) ∧
      rc1.Domains = ["qux.io", "baz.io:3000", "fiz.svc.cluster.local:8080"] := by
  obtain ⟨rc1, h1, h2, -⟩ := refreshConfig_registry sampleEnv 5
    (sampleRc false ["^foo\\.com$", "^ba(r|z)\\.(org|ru)"] ["old.example"]) []
    ["foo.com", "bar.org", "baz.ru", "qux.io"] (Or.inr rfl)
    (fun h => by simp [sampleRc, sampleConfig] at h) (fun _ => rfl) (by decide)
  exact ⟨rc1, h1, h2.trans (by decide)⟩

/-! ## The probe worker -/

theorem Results.apply_append (m : Results) (a b : List ResultsOp) :
    m.apply (a ++ b) = (m.apply a).apply b := by
  induction a generalizing m with
  | nil => rfl
  | cons op rest ih => cases op <;> simp [Results.apply, ih]

theorem certs_no_names (url : String) (clock : Nat → Int) :
    ∀ (chain : List Certificate) (i : Nat), (∀ c ∈ chain, c.DNSNames = []) →
      certTimeLeft.certs url clock chain i = []
  | [], _, _ => rfl
  | c :: rest, i, h => by
    have hc : c.DNSNames = [] := h c (by simp)
    have ih := certs_no_names url clock rest (i + 1) (fun x hx => h x (by simp [hx]))
    simp [certTimeLeft.certs, hc, ih]

theorem certs_append (url : String) (clock : Nat → Int) :
    ∀ (a b : List Certificate) (i : Nat),
      certTimeLeft.certs url clock (a ++ b) i =
        certTimeLeft.certs url clock a i ++ certTimeLeft.certs url clock b (i + a.length)
  | [], b, i => by simp [certTimeLeft.certs]
  | c :: rest, b, i => by
    have ih := certs_append url clock rest b (i + 1)
    have e : i + 1 + rest.length = i + (rest.length + 1) := by omega
    by_cases hc : c.DNSNames.length = 0 <;> simp [certTimeLeft.certs, hc, ih, e]

theorem apply_certs_other (url : String) (clock : Nat → Int) (k : String) (hk : k ≠ url) :
    ∀ (chain : List Certificate) (i : Nat) (m : Results),
      (m.apply (certTimeLeft.certs url clock chain i)) k = m k
  | [], _, _ => rfl
  | c :: rest, i, m => by
    by_cases hc : c.DNSNames.length = 0
    · simp [certTimeLeft.certs, hc, apply_certs_other url clock k hk rest (i + 1) m]
    · simp [certTimeLeft.certs, hc, Results.apply,
        apply_certs_other url clock k hk rest (i + 1), Results.set, hk]

theorem exists_last_named :
    ∀ chain : List Certificate, (∃ c ∈ chain, c.DNSNames ≠ []) →
      ∃ pre c post, chain = pre ++ c :: post ∧ c.DNSNames ≠ [] ∧ ∀ x ∈ post, x.DNSNames = []
  | [], h => by simp at h
  | c :: rest, h => by
    by_cases hr : ∃ x ∈ rest, x.DNSNames ≠ []
    · obtain ⟨pre, c1, post, e, h1, h2⟩ := exists_last_named rest hr
      exact ⟨c :: pre, c1, post, by simp [e], h1, h2⟩
    · have hc : c.DNSNames ≠ [] := by
        obtain ⟨x, hx, hx1⟩ := h
        rcases List.mem_cons.mp hx with rfl | hx2
        · exact hx1
        · exact absurd ⟨x, hx2, hx1⟩ hr
      refine ⟨[], c, rest, rfl, hc, ?_⟩
      intro x hx
      by_contra hne
      exact hr ⟨x, hx, hne⟩

/-- Counterexample for C2: over a chain of two certificates that both carry DNS names,
the first one expiring at 100 and the second at 200, the iteration leaves the lifetime
of the second in the store, not that of the first. -/
theorem certTimeLeft_first_named_counterexample :
    ∃ m : Results,
      certTimeLeft.step Results.empty "a.example" (chainProbe twoNamedChain 0) = .ok m ∧
      (twoNamedChain.find? fun c => decide (c.DNSNames ≠ [])) =
        some { DNSNames := ["a.example"], NotAfter := 100 } ∧
      m "a.example" = some ⟨200, "ok"⟩ ∧
      m "a.example" ≠ some ⟨timeUntil 0 100, "ok"⟩ :=
  ⟨_, rfl, by decide, by decide, by decide⟩

/-- C2, amended: after a response over TLS whose chain has a certificate with a non-empty
DNS list, the iteration returns and the store maps the FQDN to the lifetime of the LAST
certificate of the chain whose DNS list is non-empty, measured by the clock at that
certificate, with status `ok`; every other key is unchanged. -/
theorem certTimeLeft_last_named (results : Results) (d : String) (p : Probe)
    (chain : List Certificate) (hreq : p.requestOk = true)
    (hresp : p.resp = some { TLS := some { PeerCertificates := chain } })
    (hsan : ∃ c ∈ chain, c.DNSNames ≠ []) :
    ∃ (pre : List Certificate) (c : Certificate) (post : List Certificate) (m : Results),
      chain = pre ++ c :: post ∧ c.DNSNames ≠ [] ∧ (∀ x ∈ post, x.DNSNames = []) ∧
      certTimeLeft.step results d p = .ok m ∧
      m d = some ⟨timeUntil (p.clock pre.length) c.NotAfter, "ok"⟩ ∧
      ∀ k, k ≠ d → m k = results k := by
  obtain ⟨pre, c, post, e, hc, hpost⟩ := exists_last_named chain hsan
  refine ⟨pre, c, post, results.apply (certTimeLeft.certs d p.clock chain 0), e, hc, hpost, ?_, ?_, ?_⟩
  · simp [certTimeLeft.step, certTimeLeft.iteration, hreq, hresp]
  · have hlen : c.DNSNames.length ≠ 0 := by simpa using hc
    have hnil := certs_no_names d p.clock post (pre.length + 1) hpost
    rw [e, certs_append]
    simp [certTimeLeft.certs, hlen, hnil, Results.apply_append, Results.apply, Results.set]
  · intro k hk
    exact apply_certs_other d p.clock k hk chain 0 results

/-- Witness for C2, amended, on the chain of two certificates with DNS names. -/
theorem certTimeLeft_last_named_witness :
    ∃ (pre : List Certificate) (c : Certificate) (post : List Certificate) (m : Results),
      twoNamedChain = pre ++ c :: post ∧ c.DNSNames ≠ [] ∧ (∀ x ∈ post, x.DNSNames = []) ∧
      certTimeLeft.step Results.empty "a.example" (chainProbe twoNamedChain 0) = .ok m ∧
      m "a.example" = some ⟨timeUntil (0 : Int) c.NotAfter, "ok"⟩ ∧
      ∀ k, k ≠ "a.example" → m k = Results.empty k :=
  certTimeLeft_last_named Results.empty "a.example" (chainProbe twoNamedChain 0) twoNamedChain
    rfl rfl ⟨_, List.mem_cons_self _ _, by decide⟩

theorem iteration_writes (url : String) (p : Probe) (ops : List ResultsOp)
    (h : certTimeLeft.iteration url p = .ok ops) :
    ∀ k v, ResultsOp.write k v ∈ ops → v.CheckStatus = "fail" → v.CertLifetime = 0 := by
  have hcerts : ∀ (chain : List Certificate) (i : Nat) k v,
      ResultsOp.write k v ∈ certTimeLeft.certs url p.clock chain i →
      v.CheckStatus = "fail" → v.CertLifetime = 0 := by
    intro chain
    induction chain with
    | nil => intro i k v hm; simp [certTimeLeft.certs] at hm
    | cons c rest ih =>
      intro i k v hm hs
      by_cases hc : c.DNSNames.length = 0
      · simp only [certTimeLeft.certs, hc, ne_eq, not_true_eq_false, if_false] at hm
        exact ih (i + 1) k v hm hs
      · simp only [certTimeLeft.certs, hc, ne_eq, not_false_eq_true, if_true, List.cons_append,
          List.nil_append, List.mem_cons, ResultsOp.write.injEq, reduceCtorEq, false_or] at hm
        rcases hm with ⟨-, rfl⟩ | hm
        · simp at hs
        · exact ih (i + 1) k v hm hs
  intro k v hm hs
  unfold certTimeLeft.iteration at h
  by_cases hr : p.requestOk = true
  · cases hresp : p.resp with
    | none =>
      simp only [hr, hresp, Bool.not_true, Bool.false_eq_true, if_false, Except.ok.injEq] at h
      subst h
      simp at hm
      rw [hm.2]
    | some resp =>
      cases htls : resp.TLS with
      | none => simp [hr, hresp, htls] at h
      | some tls =>
        simp only [hr, hresp, htls, Bool.not_true, Bool.false_eq_true, if_false,
          Except.ok.injEq] at h
        subst h
        exact hcerts _ _ k v hm hs
  · simp only [hr, Bool.not_eq_true] at h
    have hr2 : p.requestOk = false := by simpa using hr
    simp only [hr2, Bool.not_false, if_true, Except.ok.injEq] at h
    subst h
    simp at hm
    rw [hm.2]

theorem apply_fail_zero (ops : List ResultsOp)
    (hw : ∀ k v, ResultsOp.write k v ∈ ops → v.CheckStatus = "fail" → v.CertLifetime = 0) :
    ∀ m : Results, (∀ k c, m k = some c → c.CheckStatus = "fail" → c.CertLifetime = 0) →
      ∀ k c, (m.apply ops) k = some c → c.CheckStatus = "fail" → c.CertLifetime = 0 := by
  induction ops with
  | nil => intro m hm; exact hm
  | cons op rest ih =>
    have hrest : ∀ k v, ResultsOp.write k v ∈ rest → v.CheckStatus = "fail" → v.CertLifetime = 0 :=
      fun k v h => hw k v (List.mem_cons_of_mem _ h)
    intro m hm
    cases op with
    | lock => exact ih hrest m hm
    | unlock => exact ih hrest m hm
    | range => exact ih hrest m hm
    | write k0 v0 =>
      apply ih hrest (m.set k0 v0)
      intro k c hk hs
      unfold Results.set at hk
      by_cases e : k = k0
      · simp only [e, if_true, Option.some.injEq] at hk
        subst hk
        exact hw k0 v0 (List.mem_cons_self _ _) hs
      · simp only [e, if_false] at hk
        exact hm k c hk hs

/-- C3: when building the HEAD request or performing it fails, the iteration returns and
the store is the earlier one with the FQDN mapped to `{0, "fail"}`: the FQDN reads
`{0, "fail"}` whatever it read before and every other key is unchanged. Consequently,
in a store built from the empty map by the writes of any iterations, of any number of
workers, in any order, every entry with status `fail` has lifetime 0. -/
theorem certTimeLeft_request_failure (results : Results) (d : String) (p : Probe)
    (hfail : p.requestOk = false ∨ p.resp = none) :
    certTimeLeft.step results d p = .ok (results.set d ⟨0, "fail"⟩) ∧
    (results.set d ⟨0, "fail"⟩) d = some ⟨0, "fail"⟩ ∧
    (∀ k, k ≠ d → (results.set d ⟨0, "fail"⟩) k = results k) ∧
    (∀ ops : List ResultsOp,
      (∀ op ∈ ops, ∃ url q its, certTimeLeft.iteration url q = .ok its ∧ op ∈ its) →
      ∀ k c, (Results.empty.apply ops) k = some c → c.CheckStatus = "fail" →
        c.CertLifetime = 0) := by
  refine ⟨?_, by simp [Results.set], fun k hk => by simp [Results.set, hk], ?_⟩
  · rcases hfail with h | h
    · simp [certTimeLeft.step, certTimeLeft.iteration, h, Results.apply]
    · cases hr : p.requestOk <;>
        simp [certTimeLeft.step, certTimeLeft.iteration, h, hr, Results.apply]
  · intro ops hops
    apply apply_fail_zero ops
    · intro k v hm hs
      obtain ⟨url, q, its, hit, hmem⟩ := hops _ hm
      exact iteration_writes url q its hit k v hmem hs
    · intro k c hk
      simp [Results.empty] at hk

/-- Witness for C3: a failed probe overwrites an earlier `ok` outcome of one day. -/
theorem certTimeLeft_request_failure_witness :
    certTimeLeft.step (Results.empty.set "a.example" ⟨86400000000000, "ok"⟩) "a.example"
        failedProbe
      = .ok ((Results.empty.set "a.example" ⟨86400000000000, "ok"⟩).set "a.example" ⟨0, "fail"⟩) ∧
    ((Results.empty.set "a.example" ⟨86400000000000, "ok"⟩).set "a.example" ⟨0, "fail"⟩)
        "a.example" = some ⟨0, "fail"⟩ :=
  have h := certTimeLeft_request_failure (Results.empty.set "a.example" ⟨86400000000000, "ok"⟩)
    "a.example" failedProbe (Or.inr rfl)
  ⟨h.1, h.2.1⟩

/-- C4, at the failing input: for a response without TLS connection state the iteration
panics on `resp.TLS.PeerCertificates`, and a worker that receives such an FQDN never
reaches the next one. -/
theorem certTimeLeft_nil_TLS_panics :
    certTimeLeft.iteration "redirect.example" plainHttpProbe = .error .panic ∧
    certTimeLeft Results.empty
        [("redirect.example", plainHttpProbe), ("a.example", chainProbe twoNamedChain 0)]
      = .error .panic :=
  ⟨rfl, rfl⟩

/-! ## Failing sources -/

theorem fetchRecords_error (api : NicApi) (t : NicToken) :
    ∀ (zs : List NicZone) (r : NicRecords) (records : List NicRecords) (s : Stop),
      NicZones.fetchRecords api t zs r records = .error s → s = .fatal
  | [], _, _, s, h => by simp [NicZones.fetchRecords] at h
  | z :: rest, r, records, s, h => by
    unfold NicZones.fetchRecords at h
    cases hd : api.records t z with
    | none => simp only [hd, Except.error.injEq] at h; exact h.symm
    | some doc =>
      simp only [hd] at h
      exact fetchRecords_error api t rest _ _ s h

theorem pddZonesLoop_error (api : PddApi) (token : String) :
    ∀ (fuel i : Nat) (pages : List PddZonePage) (s : Stop),
      GetPddZones.loop api token fuel i pages = some (.error s) → s = .fatal
  | 0, _, _, s, h => by simp [GetPddZones.loop] at h
  | fuel + 1, i, pages, s, h => by
    unfold GetPddZones.loop at h
    cases hp : api.page token i with
    | none => simp only [hp, Option.some.injEq, Except.error.injEq] at h; exact h.symm
    | some p =>
      simp only [hp] at h
      by_cases hlt : p.Found < p.OnPage
      · simp [hlt] at h
      · simp only [hlt, if_false] at h
        exact pddZonesLoop_error api token fuel (i + 1) _ s h

theorem pddDomainsLoop_error (api : PddApi) (token : String) :
    ∀ (zs domains : List String) (s : Stop),
      GetPddDomains.loop api token zs domains = .error s → s = .fatal
  | [], _, s, h => by simp [GetPddDomains.loop] at h
  | z :: rest, domains, s, h => by
    unfold GetPddDomains.loop at h
    cases hr : api.records token z with
    | none => simp only [hr, Except.error.injEq] at h; exact h.symm
    | some recs =>
      simp only [hr] at h
      exact pddDomainsLoop_error api token rest _ s h

theorem pddSource_error (env : Env) (fuel : Nat) (rc : RuntimeConf) (s : Stop)
    (h : pddSource env fuel rc = some (.error s)) : s = .fatal := by
  unfold pddSource GetPddZones at h
  cases hl : GetPddZones.loop env.pdd rc.Config.Pdd.Token fuel 1 [] with
  | none => simp [hl] at h
  | some r =>
    cases r with
    | error s1 =>
      simp only [hl, Option.some.injEq, Except.error.injEq] at h
      subst h
      exact pddZonesLoop_error _ _ _ _ _ _ hl
    | ok pages =>
      simp only [hl, Option.some.injEq, GetPddDomains] at h
      exact pddDomainsLoop_error _ _ _ _ _ h

theorem fetchRecords_fatal (api : NicApi) (t : NicToken) (z : NicZone)
    (hz : api.records t z = none) :
    ∀ (zs : List NicZone) (r : NicRecords) (records : List NicRecords), z ∈ zs →
      NicZones.fetchRecords api t zs r records = .error .fatal
  | [], _, _, h => by simp at h
  | z1 :: rest, r, records, h => by
    unfold NicZones.fetchRecords
    cases hd : api.records t z1 with
    | none => rfl
    | some doc =>
      have hne : z ≠ z1 := by
        intro e; subst e; simp [hz] at hd
      have hmem : z ∈ rest := by
        rcases List.mem_cons.mp h with e | e
        · exact absurd e hne
        · exact e
      exact fetchRecords_fatal api t z hz rest _ _ hmem

/-- The three points at which the NIC source fails: the token exchange of
`NicToken.Get`, the zones request of `GetZones`, a records request of `GetDomains`. -/
theorem nicSource_failure_points (env : Env) (rc : RuntimeConf) :
    (env.nic.token rc.Config rc.NicToken = .failed → nicSource env rc = .error .fatal) ∧
    (∀ t, env.nic.token rc.Config rc.NicToken = .decoded t → env.nic.zones t = none →
      nicSource env rc = .error .fatal) ∧
    (∀ t zs z, env.nic.token rc.Config rc.NicToken = .decoded t → env.nic.zones t = some zs →
      z ∈ zs → env.nic.records t z = none → nicSource env rc = .error .fatal) := by
  refine ⟨fun h => ?_, fun t h1 h2 => ?_, fun t zs z h1 h2 hz h3 => ?_⟩
  · simp [nicSource, NicToken.Get, h]
  · simp [nicSource, NicToken.Get, NicZones.GetZones, h1, h2]
  · simp [nicSource, NicToken.Get, NicZones.GetZones, NicZones.GetDomains, h1, h2,
      fetchRecords_fatal env.nic t z h3 zs _ _ hz]

theorem pddZonesLoop_fatal (api : PddApi) (token : String) :
    ∀ (n fuel start : Nat) (pages : List PddZonePage), n < fuel →
      (∀ j < n, ∃ p, api.page token (start + j) = some p ∧ ¬ p.Found < p.OnPage) →
      api.page token (start + n) = none →
      GetPddZones.loop api token fuel start pages = some (.error .fatal)
  | _, 0, _, _, h, _, _ => by omega
  | 0, fuel + 1, start, pages, _, _, hnone => by
    simp only [Nat.add_zero] at hnone
    simp [GetPddZones.loop, hnone]
  | n + 1, fuel + 1, start, pages, h, hfull, hnone => by
    obtain ⟨p, hp, hlt⟩ := hfull 0 (by omega)
    simp only [Nat.add_zero] at hp
    have ih := pddZonesLoop_fatal api token n fuel (start + 1) (pages ++ [p]) (by omega)
      (fun j hj => by
        obtain ⟨q, hq, hq1⟩ := hfull (j + 1) (by omega)
        exact ⟨q, by rw [← hq]; congr 1; omega, hq1⟩)
      (by rw [← hnone]; congr 1; omega)
    simp [GetPddZones.loop, hp, hlt, ih]

theorem pddDomainsLoop_fatal (api : PddApi) (token z : String)
    (hz : api.records token z = none) :
    ∀ (zs domains : List String), z ∈ zs →
      GetPddDomains.loop api token zs domains = .error .fatal
  | [], _, h => by simp at h
  | z1 :: rest, domains, h => by
    unfold GetPddDomains.loop
    cases hd : api.records token z1 with
    | none => rfl
    | some recs =>
      have hne : z ≠ z1 := by
        intro e; subst e; simp [hz] at hd
      have hmem : z ∈ rest := by
        rcases List.mem_cons.mp h with e | e
        · exact absurd e hne
        · exact e
      exact pddDomainsLoop_fatal api token z hz rest _ hmem

/-- The two points at which the PDD source fails: a page request of `GetPddZones`
(page `n + 1`, after `n` full pages) and a records request of `GetPddDomains`. -/
theorem pddSource_failure_points (env : Env) (fuel : Nat) (rc : RuntimeConf) :
    (∀ n, n < fuel →
      (∀ j < n, ∃ p, env.pdd.page rc.Config.Pdd.Token (1 + j) = some p ∧ ¬ p.Found < p.OnPage) →
      env.pdd.page rc.Config.Pdd.Token (1 + n) = none →
      pddSource env fuel rc = some (.error .fatal)) ∧
    (∀ zs z, GetPddZones env.pdd rc.Config.Pdd.Token fuel = some (.ok zs) → z ∈ zs →
      env.pdd.records rc.Config.Pdd.Token z = none →
      pddSource env fuel rc = some (.error .fatal)) := by
  refine ⟨fun n hn hfull hnone => ?_, fun zs z hzs hz hnone => ?_⟩
  · simp [pddSource, GetPddZones, pddZonesLoop_fatal env.pdd _ n fuel 1 [] hn hfull hnone]
  · simp [pddSource, hzs, GetPddDomains, pddDomainsLoop_fatal env.pdd _ z hnone zs [] hz]

/-- Counterexample for C5: with both sources enabled, a NIC account whose token
exchange fails and a PDD account that would yield four FQDNs, `refreshConfig` ends the
process through `log.Fatal`; nothing is installed. -/
theorem refreshConfig_source_failure_counterexample :
    nicSource sampleEnv (sampleRc true [] []) = .error .fatal ∧
    pddSource sampleEnv 5 (sampleRc true [] [])
      = some (.ok ["foo.com", "bar.org", "baz.ru", "qux.io"]) ∧
    (sampleRc true [] []).refreshConfig sampleEnv 5 = some (.error .fatal) :=
  ⟨rfl, rfl, rfl⟩

/-- C5, amended: when an enabled source fails through `log.Fatal`, that is, NIC is
enabled and fails, or PDD is enabled and fails after NIC was disabled or returned a
list, `refreshConfig` ends the process with that `log.Fatal`: nothing is filtered,
appended or installed. -/
theorem refreshConfig_source_failure (env : Env) (fuel : Nat) (rc : RuntimeConf)
    (h : (rc.Config.Nic.Enabled = true ∧ nicSource env rc = .error .fatal) ∨
         (rc.Config.Pdd.Enabled = true ∧
          (rc.Config.Nic.Enabled = true → (nicSource env rc).isOk = true) ∧
          pddSource env fuel rc = some (.error .fatal))) :
    rc.refreshConfig env fuel = some (.error .fatal) := by
  rcases h with ⟨hn, hs⟩ | ⟨hp, hnic, hr⟩
  · have hs1 : nicSource env (rc.locked []) = .error .fatal := hs
    have := refreshNicConfig_of_error env (rc.locked []) _ hs1
    unfold RuntimeConf.refreshConfig
    simp [hn, RuntimeConf.locked] at this ⊢
    simp [this]
  · have h0 : (!rc.Config.Nic.Enabled && !rc.Config.Pdd.Enabled) = false := by simp [hp]
    obtain ⟨rc2, hrc2, hc2⟩ : ∃ rc2 : RuntimeConf,
        (if (rc.locked []).Config.Nic.Enabled then (rc.locked []).refreshNicConfig env
          else .ok (rc.locked [])) = .ok rc2 ∧ rc2.Config = rc.Config := by
      cases hn : rc.Config.Nic.Enabled with
      | false => exact ⟨rc.locked [], by simp [RuntimeConf.locked, hn], rfl⟩
      | true =>
        cases hs : nicSource env rc with
        | error s1 => have := hnic hn; simp [hs, Except.isOk, Except.toBool] at this
        | ok N =>
          have hs1 : nicSource env (rc.locked []) = .ok N := hs
          obtain ⟨rc2, h1, h2, -, -⟩ := refreshNicConfig_of_source env (rc.locked []) N hs1
          exact ⟨rc2, by simpa [RuntimeConf.locked, hn] using h1, h2⟩
    have hsrc : pddSource env fuel rc2 = some (.error .fatal) := by
      simpa [pddSource, hc2] using hr
    have hpd := refreshPddConfig_of_error env fuel rc2 _ hsrc
    unfold RuntimeConf.refreshConfig
    simp only [h0, Bool.false_eq_true, if_false]
    simp only [hrc2, hc2, hp, if_true, hpd]

/-- Witness for C5, amended: NIC returns three FQDNs and then a records request of PDD
fails. -/
theorem refreshConfig_source_failure_witness :
    (sampleRc true [] []).refreshConfig brokenEnv 5 = some (.error .fatal) :=
  refreshConfig_source_failure brokenEnv 5 (sampleRc true [] [])
    (Or.inr ⟨rfl, fun _ => rfl, rfl⟩)

/-! ## Patterns that do not compile -/

theorem inner_first_bad (compile : String → Option (String → Bool)) (d bad : String)
    (post : List String) (hbad : compile bad = none) :
    ∀ (pre : List String) (m : Bool), (∀ e ∈ pre, (compile e).isSome = true) →
      RuntimeConf.excludeDomains.inner compile d (pre ++ bad :: post) m
        = if matchesAny compile pre d then .ok true else .error .panic
  | [], m, _ => by simp [RuntimeConf.excludeDomains.inner, hbad, matchesAny]
  | e :: rest, m, hc => by
    have he : (compile e).isSome = true := hc e (by simp)
    have ih := inner_first_bad compile d bad post hbad rest false
      (fun x hx => hc x (by simp [hx]))
    cases hce : compile e with
    | none => simp [hce] at he
    | some re =>
      cases hre : re d with
      | true => simp [RuntimeConf.excludeDomains.inner, matchesAny, hce, hre]
      | false =>
        have hany : matchesAny compile (e :: rest) d = matchesAny compile rest d := by
          simp [matchesAny, hce, hre]
        rw [hany, ← ih]
        simp [RuntimeConf.excludeDomains.inner, hce, hre]

theorem outer_first_bad (compile : String → Option (String → Bool)) (bad : String)
    (pre post : List String) (hbad : compile bad = none)
    (hpre : ∀ e ∈ pre, (compile e).isSome = true) :
    ∀ (domains : List String) (m : Bool) (result : List String),
      RuntimeConf.excludeDomains.outer compile (pre ++ bad :: post) domains m result
        = if domains.all (matchesAny compile pre) then .ok result else .error .panic
  | [], m, result => by simp [RuntimeConf.excludeDomains.outer]
  | d :: rest, m, result => by
    have hin := inner_first_bad compile d bad post hbad pre m hpre
    have ih := outer_first_bad compile bad pre post hbad hpre rest true result
    cases hm : matchesAny compile pre d with
    | true =>
      have hall : (d :: rest).all (matchesAny compile pre) = rest.all (matchesAny compile pre) := by
        simp [hm]
      rw [hall, ← ih]
      simp [RuntimeConf.excludeDomains.outer, hin, hm]
    | false =>
      simp [RuntimeConf.excludeDomains.outer, hin, hm]

theorem matchesAny_append (compile : String → Option (String → Bool)) (a b : List String)
    (d : String) :
    matchesAny compile (a ++ b) d = (matchesAny compile a d || matchesAny compile b d) := by
  simp [matchesAny, List.any_append]

/-- Counterexample for C8: on the one domain `qux.io` and the one pattern `(`, which
does not compile, `excludeDomains` panics. -/
theorem excludeDomains_invalid_pattern_counterexample :
    (sampleRc false ["("] ["qux.io"]).Domains ≠ [] ∧
    sampleCompile "(" = none ∧
    (sampleRc false ["("] ["qux.io"]).excludeDomains sampleEnv = .error .panic :=
  ⟨by decide, rfl, rfl⟩

theorem excludeDomains_first_bad (env : Env) (rc : RuntimeConf) (pre post : List String)
    (bad : String) (hex : rc.Config.Global.ExcludeDomains = pre ++ bad :: post)
    (hpre : ∀ e ∈ pre, (env.compile e).isSome = true) (hbad : env.compile bad = none) :
    ((∃ d ∈ rc.Domains, matchesAny env.compile pre d = false) →
      rc.excludeDomains env = .error .panic) ∧
    ((∀ d ∈ rc.Domains, matchesAny env.compile pre d = true) →
      rc.excludeDomains env = .ok (rc.locked
        (rc.Domains.filter fun d => !matchesAny env.compile rc.Config.Global.ExcludeDomains d)) ∧
      (rc.Domains.filter fun d => !matchesAny env.compile rc.Config.Global.ExcludeDomains d)
        = []) := by
  have hout := outer_first_bad env.compile bad pre post hbad hpre rc.Domains false []
  constructor
  · rintro ⟨d, hd, hm⟩
    have hall : rc.Domains.all (matchesAny env.compile pre) = false := by
      rw [List.all_eq_false]
      exact ⟨d, hd, by simp [hm]⟩
    simp [RuntimeConf.excludeDomains, hex, hout, hall]
  · intro hall
    have hall1 : rc.Domains.all (matchesAny env.compile pre) = true := by
      rw [List.all_eq_true]
      exact hall
    have hnil : (rc.Domains.filter
        fun d => !matchesAny env.compile rc.Config.Global.ExcludeDomains d) = [] := by
      rw [List.filter_eq_nil_iff]
      intro d hd
      simp [hex, matchesAny_append, hall d hd]
    refine ⟨?_, hnil⟩
    rw [hnil]
    simp [RuntimeConf.excludeDomains, hex, hout, hall1]

/-- C8, amended: let `bad` be the first pattern that does not compile and `pre` the
patterns before it. When some domain of the list is matched by no pattern of `pre`,
`excludeDomains` panics in `regexp.MustCompile`; when every domain is matched by a
pattern of `pre`, it returns and stores the list filtered by the patterns that compile,
which is then empty. -/
theorem excludeDomains_invalid_pattern (env : Env) (rc : RuntimeConf) (pre post : List String)
    (bad : String) (hex : rc.Config.Global.ExcludeDomains = pre ++ bad :: post)
    (hpre : ∀ e ∈ pre, (env.compile e).isSome = true) (hbad : env.compile bad = none) :
    ((∃ d ∈ rc.Domains, matchesAny env.compile pre d = false) →
      rc.excludeDomains env = .error .panic) ∧
    ((∀ d ∈ rc.Domains, matchesAny env.compile pre d = true) →
      rc.excludeDomains env = .ok (rc.locked
        (rc.Domains.filter fun d => !matchesAny env.compile rc.Config.Global.ExcludeDomains d)) ∧
      (rc.Domains.filter fun d => !matchesAny env.compile rc.Config.Global.ExcludeDomains d)
        = []) :=
  excludeDomains_first_bad env rc pre post bad hex hpre hbad

/-- Witness for C8, amended: `foo.com` is matched by the first pattern, `qux.io` reaches
the pattern `(`. -/
theorem excludeDomains_invalid_pattern_witness :
    (sampleRc false ["^foo\\.com$", "("] ["foo.com", "qux.io"]).excludeDomains sampleEnv
      = .error .panic :=
  (excludeDomains_invalid_pattern sampleEnv
    (sampleRc false ["^foo\\.com$", "("] ["foo.com", "qux.io"]) ["^foo\\.com$"] [] "("
    rfl (by decide) rfl).1 ⟨"qux.io", by decide, by decide⟩

/-- Counterexample for C9: at startup, with the one pattern `(` and a source that
returns no FQDN, `refreshConfig` returns and installs the static additions. -/
theorem refreshConfig_invalid_pattern_counterexample :
    sampleCompile "(" = none ∧
    pddSource emptyEnv 5 (sampleRc false ["("] []) = some (.ok []) ∧
    ∃ rc1 : RuntimeConf,
      (sampleRc false ["("] []).refreshConfig emptyEnv 5 = some (.ok rc1) ∧
      rc1.Domains = ["baz.io:3000", "fiz.svc.cluster.local:8080"] :=
  ⟨rfl, rfl, _, rfl, by decide⟩

/-- C9, amended: let `bad` be the first pattern that does not compile and `pre` the
patterns before it, and let the enabled sources return `N` and `P`. When some source
FQDN is matched by no pattern of `pre`, `refreshConfig` ends the process by the panic
of `regexp.MustCompile`; when every source FQDN is matched by a pattern of `pre`, as
with an empty source output, it returns and installs the static additions. -/
theorem refreshConfig_invalid_pattern (env : Env) (fuel : Nat) (rc : RuntimeConf)
    (N P pre post : List String) (bad : String)
    (hen : rc.Config.Nic.Enabled = true ∨ rc.Config.Pdd.Enabled = true)
    (hN : rc.Config.Nic.Enabled = true → nicSource env rc = .ok N)
    (hP : rc.Config.Pdd.Enabled = true → pddSource env fuel rc = some (.ok P))
    (hex : rc.Config.Global.ExcludeDomains = pre ++ bad :: post)
    (hpre : ∀ e ∈ pre, (env.compile e).isSome = true) (hbad : env.compile bad = none) :
    ((∃ d ∈ sourceOutput rc.Config N P, matchesAny env.compile pre d = false) →
      rc.refreshConfig env fuel = some (.error .panic)) ∧
    ((∀ d ∈ sourceOutput rc.Config N P, matchesAny env.compile pre d = true) →
      ∃ rc1 : RuntimeConf, rc.refreshConfig env fuel = some (.ok rc1) ∧
        rc1.Domains = rc.Config.Global.AddDomains) := by
  obtain ⟨rc3, hc3, hd3, -, hrun⟩ := refreshConfig_sources env fuel rc N P hen hN hP
  have hex3 : rc3.Config.Global.ExcludeDomains = pre ++ bad :: post := by rw [hc3, hex]
  obtain ⟨hpanic, hpass⟩ := excludeDomains_first_bad env rc3 pre post bad hex3 hpre hbad
  constructor
  · intro h
    rw [hrun, hpanic (by rwa [hd3])]
  · intro h
    obtain ⟨hok, hnil⟩ := hpass (by rwa [hd3])
    refine ⟨_, by rw [hrun, hok], ?_⟩
    rw [hnil]
    simp [RuntimeConf.addStaticDomains, RuntimeConf.locked, addStatic_loop, hc3]

/-- Witness for C9, amended: the only source FQDN `bar.org` is matched by the second
pattern, so the pattern `(` is never compiled. -/
theorem refreshConfig_invalid_pattern_witness :
    ∃ rc1 : RuntimeConf,
      (sampleRc false ["^foo\\.com$", "^ba(r|z)\\.(org|ru)", "("] []).refreshConfig barEnv 5
        = some (.ok rc1) ∧
      rc1.Domains = ["baz.io:3000", "fiz.svc.cluster.local:8080"] :=
  (refreshConfig_invalid_pattern barEnv 5
    (sampleRc false ["^foo\\.com$", "^ba(r|z)\\.(org|ru)", "("] []) []
    ["bar.org"] ["^foo\\.com$", "^ba(r|z)\\.(org|ru)"] [] "("
    (Or.inr rfl) (fun h => by simp [sampleRc, sampleConfig] at h) (fun _ => rfl) rfl
    (by decide) rfl).2 (by decide)

/-! ## What the dispatcher can observe during a pass -/

theorem snapshot_mem (old : List String) (stores : List (List String)) (k : Nat) :
    queueDomains.snapshot old stores k ∈ old :: stores := by
  unfold queueDomains.snapshot
  have hlt : min k stores.length < (old :: stores).length := by
    simp only [List.length_cons]; omega
  rw [List.getD_eq_getElem _ _ hlt]
  exact List.getElem_mem _

theorem snapshot_onto (old : List String) (stores : List (List String)) (v : List String)
    (hv : v ∈ old :: stores) : ∃ k, queueDomains.snapshot old stores k = v := by
  obtain ⟨k, hk, hkv⟩ := List.getElem_of_mem hv
  refine ⟨k, ?_⟩
  unfold queueDomains.snapshot
  have hk1 : k ≤ stores.length := by
    simp only [List.length_cons] at hk; omega
  rw [Nat.min_eq_left hk1, List.getD_eq_getElem _ _ hk]
  exact hkv

theorem refreshConfig_sections (env : Env) (fuel : Nat) (rc : RuntimeConf) (N P : List String)
    (hen : rc.Config.Nic.Enabled = true ∨ rc.Config.Pdd.Enabled = true)
    (hN : rc.Config.Nic.Enabled = true → nicSource env rc = .ok N)
    (hP : rc.Config.Pdd.Enabled = true → pddSource env fuel rc = some (.ok P))
    (hc : ∀ e ∈ rc.Config.Global.ExcludeDomains, (env.compile e).isSome = true) :
    ∃ rc1 : RuntimeConf, rc.refreshConfig env fuel = some (.ok rc1) ∧
      rc1.sections = rc.sections ++ passStores rc.Config env.compile N P ∧
      (passStores rc.Config env.compile N P).getLast? = some rc1.Domains := by
  obtain ⟨rc3, hc3, hd3, hs3, hrun⟩ := refreshConfig_sources env fuel rc N P hen hN hP
  have hout := outer_of_compile env.compile rc.Config.Global.ExcludeDomains hc
    (sourceOutput rc.Config N P) false [] (fun _ => rfl)
  refine ⟨(rc3.locked ((sourceOutput rc.Config N P).filter
      (fun d => !matchesAny env.compile rc.Config.Global.ExcludeDomains d))).addStaticDomains,
    ?_, ?_, ?_⟩
  · rw [hrun]
    simp [RuntimeConf.excludeDomains, hc3, hd3, hout]
  · simp [RuntimeConf.addStaticDomains, RuntimeConf.locked, addStatic_loop, hc3, hs3, passStores]
  · have e : passStores rc.Config env.compile N P =
        ([] :: sourceStores rc.Config N P ++
          [(sourceOutput rc.Config N P).filter
            (fun d => !matchesAny env.compile rc.Config.Global.ExcludeDomains d)]) ++
        [(sourceOutput rc.Config N P).filter
            (fun d => !matchesAny env.compile rc.Config.Global.ExcludeDomains d)
          ++ rc.Config.Global.AddDomains] := by
      simp [passStores]
    rw [e, List.getLast?_concat]
    simp [RuntimeConf.addStaticDomains, RuntimeConf.locked, addStatic_loop, hc3]

/-- Counterexample for C6: in a pass over the sample account, a reader that takes its
snapshot after the first critical section sees the cleared list, which is neither the
registry from before the pass nor the one the pass ends with; after the second it
sees the unfiltered source output and after the third the filtered list without the
static additions. -/
theorem refreshConfig_observable_counterexample :
    ∃ rc1 : RuntimeConf,
      (sampleRc false ["^foo\\.com$", "^ba(r|z)\\.(org|ru)"] ["old.example"]).refreshConfig
        sampleEnv 5 = some (.ok rc1) ∧
      rc1.Domains = ["qux.io", "baz.io:3000", "fiz.svc.cluster.local:8080"] ∧
      queueDomains.snapshot ["old.example"] rc1.sections 1 = [] ∧
      queueDomains.snapshot ["old.example"] rc1.sections 1 ≠ ["old.example"] ∧
      queueDomains.snapshot ["old.example"] rc1.sections 1 ≠ rc1.Domains ∧
      queueDomains.snapshot ["old.example"] rc1.sections 2
        = ["foo.com", "bar.org", "baz.ru", "qux.io"] ∧
      queueDomains.snapshot ["old.example"] rc1.sections 3 = ["qux.io"] :=
  ⟨_, rfl, by decide, by decide, by decide, by decide, by decide, by decide⟩

theorem inner_ok_eq (compile : String → Option (String → Bool)) (d : String) :
    ∀ (excludes : List String) (m b : Bool), (excludes = [] → m = false) →
      RuntimeConf.excludeDomains.inner compile d excludes m = .ok b →
      b = matchesAny compile excludes d
  | [], m, b, hm, h => by
    simp only [RuntimeConf.excludeDomains.inner, Except.ok.injEq] at h
    simp [matchesAny, ← h, hm rfl]
  | e :: rest, m, b, _, h => by
    unfold RuntimeConf.excludeDomains.inner at h
    cases hce : compile e with
    | none => simp [hce] at h
    | some re =>
      simp only [hce] at h
      cases hre : re d with
      | true =>
        simp only [hre, if_true, Except.ok.injEq] at h
        simp [matchesAny, hce, hre, ← h]
      | false =>
        simp only [hre, Bool.false_eq_true, if_false] at h
        have ih := inner_ok_eq compile d rest false b (fun _ => rfl) h
        rw [ih]
        simp [matchesAny, hce, hre]

theorem outer_ok_eq (compile : String → Option (String → Bool)) (excludes : List String) :
    ∀ (domains : List String) (m : Bool) (result r : List String), (excludes = [] → m = false) →
      RuntimeConf.excludeDomains.outer compile excludes domains m result = .ok r →
      r = result ++ domains.filter fun d => !matchesAny compile excludes d
  | [], m, result, r, _, h => by
    simp only [RuntimeConf.excludeDomains.outer, Except.ok.injEq] at h
    simp [← h]
  | d :: rest, m, result, r, hm, h => by
    unfold RuntimeConf.excludeDomains.outer at h
    cases hin : RuntimeConf.excludeDomains.inner compile d excludes m with
    | error s => simp [hin] at h
    | ok m1 =>
      simp only [hin] at h
      have hm1 := inner_ok_eq compile d excludes m m1 hm hin
      have hnil : excludes = [] → m1 = false := by
        intro e; rw [hm1, e]; simp [matchesAny]
      have ih := outer_ok_eq compile excludes rest m1 _ r hnil h
      rw [ih, hm1]
      cases hany : matchesAny compile excludes d <;> simp [List.filter_cons, hany]

theorem excludeDomains_ok_eq (env : Env) (rc rc4 : RuntimeConf)
    (h : rc.excludeDomains env = .ok rc4) :
    rc4 = rc.locked
      (rc.Domains.filter fun d => !matchesAny env.compile rc.Config.Global.ExcludeDomains d) := by
  unfold RuntimeConf.excludeDomains at h
  cases hout : RuntimeConf.excludeDomains.outer env.compile rc.Config.Global.ExcludeDomains
      rc.Domains false [] with
  | error s => simp [hout] at h
  | ok result =>
    simp only [hout, Except.ok.injEq] at h
    have := outer_ok_eq env.compile _ rc.Domains false [] result (fun _ => rfl) hout
    rw [← h, this]
    simp

theorem refreshPddConfig_of_none (env : Env) (fuel : Nat) (rc : RuntimeConf)
    (h : pddSource env fuel rc = none) : rc.refreshPddConfig env fuel = none := by
  unfold pddSource at h
  unfold RuntimeConf.refreshPddConfig
  cases hz : GetPddZones env.pdd rc.Config.Pdd.Token fuel with
  | none => simp [hz]
  | some r =>
    cases r with
    | error s => simp [hz] at h
    | ok z => simp [hz] at h

/-- A pass that returns had a source enabled, and its enabled sources returned lists. -/
theorem refreshConfig_completed_sources (env : Env) (fuel : Nat) (rc rc1 : RuntimeConf)
    (hdone : rc.refreshConfig env fuel = some (.ok rc1)) :
    (rc.Config.Nic.Enabled = true ∨ rc.Config.Pdd.Enabled = true) ∧
    ∃ N P : List String,
      (rc.Config.Nic.Enabled = true → nicSource env rc = .ok N) ∧
      (rc.Config.Pdd.Enabled = true → pddSource env fuel rc = some (.ok P)) := by
  have hen : rc.Config.Nic.Enabled = true ∨ rc.Config.Pdd.Enabled = true := by
    by_contra hno
    have h1 : rc.Config.Nic.Enabled = false := by
      cases h : rc.Config.Nic.Enabled <;> simp [h] at hno ⊢
    have h2 : rc.Config.Pdd.Enabled = false := by
      cases h : rc.Config.Pdd.Enabled <;> simp [h] at hno ⊢
    simp [RuntimeConf.refreshConfig, h1, h2] at hdone
  refine ⟨hen, ?_⟩
  have h0 : (!rc.Config.Nic.Enabled && !rc.Config.Pdd.Enabled) = false := by
    rcases hen with h | h <;> simp [h]
  -- the NIC phase returned
  obtain ⟨N, hN⟩ : ∃ N, rc.Config.Nic.Enabled = true → nicSource env rc = .ok N := by
    cases hn : rc.Config.Nic.Enabled with
    | false => exact ⟨[], fun h => by simp at h⟩
    | true =>
      cases hs : nicSource env rc with
      | ok N => exact ⟨N, fun _ => rfl⟩
      | error s =>
        exfalso
        have hs1 : nicSource env (rc.locked []) = .error s := hs
        have herr := refreshNicConfig_of_error env (rc.locked []) s hs1
        unfold RuntimeConf.refreshConfig at hdone
        simp only [h0, Bool.false_eq_true, if_false] at hdone
        have hn1 : (rc.locked []).Config.Nic.Enabled = true := hn
        simp [hn1, herr] at hdone
  refine ⟨N, ?_⟩
  obtain ⟨rc2, hrc2, hc2⟩ : ∃ rc2 : RuntimeConf,
      (if (rc.locked []).Config.Nic.Enabled then (rc.locked []).refreshNicConfig env
        else .ok (rc.locked [])) = .ok rc2 ∧ rc2.Config = rc.Config := by
    cases hn : rc.Config.Nic.Enabled with
    | false => exact ⟨rc.locked [], by simp [RuntimeConf.locked, hn], rfl⟩
    | true =>
      have hs1 : nicSource env (rc.locked []) = .ok N := hN hn
      obtain ⟨rc2, h1, h2, -, -⟩ := refreshNicConfig_of_source env (rc.locked []) N hs1
      exact ⟨rc2, by simpa [RuntimeConf.locked, hn] using h1, h2⟩
  cases hp : rc.Config.Pdd.Enabled with
  | false => exact ⟨[], hN, fun h => by simp at h⟩
  | true =>
    have hp2 : rc2.Config.Pdd.Enabled = true := by rw [hc2]; exact hp
    unfold RuntimeConf.refreshConfig at hdone
    simp only [h0, Bool.false_eq_true, if_false] at hdone
    simp only [hrc2, hp2, if_true] at hdone
    have hsame : pddSource env fuel rc2 = pddSource env fuel rc := by
      simp [pddSource, hc2]
    cases hs : pddSource env fuel rc with
    | none =>
      exfalso
      have := refreshPddConfig_of_none env fuel rc2 (hsame.trans hs)
      simp [this] at hdone
    | some r =>
      cases r with
      | error s =>
        exfalso
        have := refreshPddConfig_of_error env fuel rc2 s (hsame.trans hs)
        simp [this] at hdone
      | ok P => exact ⟨P, hN, fun _ => rfl⟩

theorem refreshConfig_completed_sections (env : Env) (fuel : Nat) (rc rc1 : RuntimeConf)
    (N P : List String)
    (hen : rc.Config.Nic.Enabled = true ∨ rc.Config.Pdd.Enabled = true)
    (hN : rc.Config.Nic.Enabled = true → nicSource env rc = .ok N)
    (hP : rc.Config.Pdd.Enabled = true → pddSource env fuel rc = some (.ok P))
    (hdone : rc.refreshConfig env fuel = some (.ok rc1)) :
    rc1.sections = rc.sections ++ passStores rc.Config env.compile N P ∧
    (passStores rc.Config env.compile N P).getLast? = some rc1.Domains := by
  obtain ⟨rc3, hc3, hd3, hs3, hrun⟩ := refreshConfig_sources env fuel rc N P hen hN hP
  rw [hrun] at hdone
  cases hex : rc3.excludeDomains env with
  | error s => simp [hex] at hdone
  | ok rc4 =>
    simp only [hex, Option.some.injEq, Except.ok.injEq] at hdone
    have h4 := excludeDomains_ok_eq env rc3 rc4 hex
    rw [hc3, hd3] at h4
    subst hdone
    subst h4
    constructor
    · simp [RuntimeConf.addStaticDomains, RuntimeConf.locked, addStatic_loop, hc3, hs3,
        passStores]
    · have e : passStores rc.Config env.compile N P =
          ([] :: sourceStores rc.Config N P ++
            [(sourceOutput rc.Config N P).filter
              (fun d => !matchesAny env.compile rc.Config.Global.ExcludeDomains d)]) ++
          [(sourceOutput rc.Config N P).filter
              (fun d => !matchesAny env.compile rc.Config.Global.ExcludeDomains d)
            ++ rc.Config.Global.AddDomains] := by
        simp [passStores]
      rw [e, List.getLast?_concat]
      simp [RuntimeConf.addStaticDomains, RuntimeConf.locked, addStatic_loop, hc3]

/-- C6, amended: a pass that returns has stored, one critical section each, the cleared
list, the list after each enabled source appended its output, the filtered list, and
the filtered list with the static additions, the last being the registry it ends
with; the values a reader can observe are the registry from before the pass and
exactly these stored values. Here `N` and `P` are the lists that the enabled sources
returned, and the filtered list is the source output without the FQDNs matched by a
pattern that compiles. -/
theorem refreshConfig_observable (env : Env) (fuel : Nat) (rc rc1 : RuntimeConf)
    (hdone : rc.refreshConfig env fuel = some (.ok rc1)) :
    ∃ N P : List String,
      (rc.Config.Nic.Enabled = true → nicSource env rc = .ok N) ∧
      (rc.Config.Pdd.Enabled = true → pddSource env fuel rc = some (.ok P)) ∧
      rc1.sections = rc.sections ++ passStores rc.Config env.compile N P ∧
      (passStores rc.Config env.compile N P).getLast? = some rc1.Domains ∧
      (∀ k, queueDomains.snapshot rc.Domains (passStores rc.Config env.compile N P) k
          ∈ rc.Domains :: passStores rc.Config env.compile N P) ∧
      (∀ v ∈ rc.Domains :: passStores rc.Config env.compile N P,
          ∃ k, queueDomains.snapshot rc.Domains (passStores rc.Config env.compile N P) k = v) := by
  obtain ⟨hen, N, P, hN, hP⟩ := refreshConfig_completed_sources env fuel rc rc1 hdone
  obtain ⟨h2, h3⟩ := refreshConfig_completed_sections env fuel rc rc1 N P hen hN hP hdone
  exact ⟨N, P, hN, hP, h2, h3, fun k => snapshot_mem _ _ k, fun v hv => snapshot_onto _ _ v hv⟩

/-- Witness for C6, amended: a pass that returns although its last pattern `(` does
not compile, because the only source FQDN `bar.org` is matched before it. -/
theorem refreshConfig_observable_witness :
    barRc.refreshConfig barEnv 5 = some (.ok barDone) ∧
    barDone.sections =
      [[], ["bar.org"], [], ["baz.io:3000", "fiz.svc.cluster.local:8080"]] ∧
    ∃ N P : List String,
      (barRc.Config.Nic.Enabled = true → nicSource barEnv barRc = .ok N) ∧
      (barRc.Config.Pdd.Enabled = true → pddSource barEnv 5 barRc = some (.ok P)) ∧
      barDone.sections = barRc.sections ++ passStores barRc.Config barEnv.compile N P ∧
      (passStores barRc.Config barEnv.compile N P).getLast? = some barDone.Domains ∧
      (∀ k, queueDomains.snapshot barRc.Domains (passStores barRc.Config barEnv.compile N P) k
          ∈ barRc.Domains :: passStores barRc.Config barEnv.compile N P) ∧
      (∀ v ∈ barRc.Domains :: passStores barRc.Config barEnv.compile N P,
          ∃ k, queueDomains.snapshot barRc.Domains
            (passStores barRc.Config barEnv.compile N P) k = v) :=
  ⟨rfl, by decide, refreshConfig_observable barEnv 5 barRc barDone rfl⟩

/-! ## The NIC records of several zones -/

/-- C7, at the failing input: for the zones `example.com` with the record `www` and
`example.org` with the record `mail`, `GetDomains` also returns `www.example.org`,
the record of the first zone under the name of the second, where the selection
policy gives `www.example.com` and `mail.example.org` only. -/
theorem GetDomains_two_zones :
    NicZones.GetDomains twoZoneNic twoZones { Expires := "14400", Token := "t" }
      = .ok ["www.example.com", "www.example.org", "mail.example.org"] ∧
    NicZones.policyDomains
        [(comZone, [{ Name := "www", IdnName := "www", Type_ := "A" }]),
         (orgZone, [{ Name := "mail", IdnName := "mail", Type_ := "A" }])]
      = ["www.example.com", "mail.example.org"] :=
  ⟨rfl, by decide⟩

/-! ## The mutex of the results store -/

theorem iteration_guarded (url : String) (p : Probe) (ops : List ResultsOp)
    (h : certTimeLeft.iteration url p = .ok ops) : ResultsOp.guarded false ops = true := by
  have hcerts : ∀ (chain : List Certificate) (i : Nat),
      ResultsOp.guarded false (certTimeLeft.certs url p.clock chain i) = true := by
    intro chain
    induction chain with
    | nil => intro i; rfl
    | cons c rest ih =>
      intro i
      by_cases hc : c.DNSNames.length = 0
      · simp [certTimeLeft.certs, hc, ih]
      · simp [certTimeLeft.certs, hc, ih, ResultsOp.guarded]
  unfold certTimeLeft.iteration at h
  cases hr : p.requestOk with
  | false =>
    simp only [hr, Bool.not_false, if_true, Except.ok.injEq] at h
    subst h; rfl
  | true =>
    cases hresp : p.resp with
    | none =>
      simp only [hr, hresp, Bool.not_true, Bool.false_eq_true, if_false, Except.ok.injEq] at h
      subst h; rfl
    | some resp =>
      cases htls : resp.TLS with
      | none => simp [hr, hresp, htls] at h
      | some tls =>
        simp only [hr, hresp, htls, Bool.not_true, Bool.false_eq_true, if_false,
          Except.ok.injEq] at h
        subst h
        exact hcerts _ _

/-- C10, at the failing input: the closure `metrics` iterates over the map while its
goroutine does not hold the mutex; the `Lock` and `Unlock` of `serveMetrics` are both
over before the closure runs. -/
theorem metrics_reads_without_mutex :
    ResultsOp.range ∈ serveMetrics.metrics ∧
    ResultsOp.guarded false serveMetrics.metrics = false ∧
    ResultsOp.guarded false (serveMetrics.ops ++ serveMetrics.metrics) = false := by
  decide

/-! ## Further facts on the sources and the worker -/

/-- A source of NIC that stops the process does so through `log.Fatal`, or through
the panic after a token body `null`. -/
theorem nicSource_error (env : Env) (rc : RuntimeConf) (s : Stop)
    (h : nicSource env rc = .error s) :
    s = .fatal ∨ (s = .panic ∧ env.nic.token rc.Config rc.NicToken = .null) := by
  unfold nicSource NicToken.Get NicZones.GetZones at h
  cases ht : env.nic.token rc.Config rc.NicToken with
  | failed => simp only [ht, Except.error.injEq] at h; exact Or.inl h.symm
  | null => simp only [ht, Except.error.injEq] at h; exact Or.inr ⟨h.symm, rfl⟩
  | decoded t =>
    cases hz : env.nic.zones t with
    | none => simp only [ht, hz, Except.error.injEq] at h; exact Or.inl h.symm
    | some zs =>
      simp only [ht, hz, NicZones.GetDomains] at h
      cases hf : NicZones.fetchRecords env.nic t zs { Name := "", Rr := [] } [] with
      | error s1 =>
        simp only [hf, Except.error.injEq] at h
        subst h
        exact Or.inl (fetchRecords_error _ _ _ _ _ _ hf)
      | ok recs => simp [hf] at h

/-- An iteration returns when the request fails or the response carries TLS state,
whatever the certificate list. -/
theorem iteration_completes (url : String) (p : Probe)
    (h : p.requestOk = false ∨ p.resp = none ∨
      ∃ chain, p.resp = some { TLS := some { PeerCertificates := chain } }) :
    ∃ ops, certTimeLeft.iteration url p = .ok ops := by
  unfold certTimeLeft.iteration
  cases hr : p.requestOk with
  | false => exact ⟨[.lock, .write url ⟨0, "fail"⟩, .unlock], by simp⟩
  | true =>
    rcases h with h | h | ⟨chain, h⟩
    · simp [hr] at h
    · exact ⟨[.lock, .write url ⟨0, "fail"⟩, .unlock], by simp [h]⟩
    · exact ⟨certTimeLeft.certs url p.clock chain 0, by simp [h]⟩

theorem entryDomains_eq (zone : String) :
    ∀ (rrs : List NicRr) (domains : List String),
      NicZones.entryDomains zone rrs domains =
        domains ++ (rrs.filter fun r =>
          decide ((r.Type_ = "A" ∨ r.Type_ = "CNAME") ∧ r.Name ≠ "@")).map
            fun r => r.Name ++ "." ++ zone
  | [], domains => by simp [NicZones.entryDomains]
  | r :: rest, domains => by
    by_cases hr : (r.Type_ = "A" ∨ r.Type_ = "CNAME") ∧ r.Name ≠ "@"
    · simp [NicZones.entryDomains, hr, entryDomains_eq zone rest, List.filter_cons]
    · simp [NicZones.entryDomains, hr, entryDomains_eq zone rest, List.filter_cons]

/-- For a single zone whose response names that zone, `GetDomains` returns what the
selection policy describes. -/
theorem GetDomains_one_zone (api : NicApi) (t : NicToken) (zone : NicZone) (rrs : List NicRr)
    (h : api.records t zone = some { Name := some zone.Name, Rr := rrs }) :
    NicZones.GetDomains api [zone] t = .ok (NicZones.policyDomains [(zone, rrs)]) := by
  simp [NicZones.GetDomains, NicZones.fetchRecords, h, NicRecords.unmarshal,
    NicZones.collectDomains, entryDomains_eq, NicZones.policyDomains]

end CertLifetime
